import Mathlib

/-!
Shallow embedding of `brainstorm/data_iterators.py`.

Data model: a *named dataset* is a finite mapping from names to array-like
values, modelled here as an association list `List (String × Value)` in
insertion order (Python `**named_data` keyword arguments guarantee distinct
keys).  An array-like value either lacks a `shape` attribute or carries a
shape, a list of axis extents.  The progress bar and all `print` calls are
pure console output and are not modelled; no claim mentions them.
-/

/-- A Python value passed in `named_data`: either an object without a
`shape` attribute, or an ndarray-like object with a shape (list of axis
extents, axis 0 = time, axis 1 = sequence/batch, rest = features). -/
inductive Value where
  | noShape
  | arr (shape : List Nat)
deriving DecidableEq

/-- The Python exceptions the module can raise:
`IteratorValidationError` (from `brainstorm.utils`), the builtin
`ValueError` (from `min()` on an empty sequence), `NameError` (reading an
unbound local) and `ZeroDivisionError` (division by zero). -/
inductive PyError where
  | iteratorValidationError (msg : String)
  | valueError (msg : String)
  | nameError (msg : String)
  | zeroDivisionError (msg : String)
deriving DecidableEq

/-- The single-quote character, used by Python `repr` of a dict key. -/
def squote : Char := Char.ofNat 39

/-- Python `repr` of one `name: count` entry of the `nr_sequences` dict:
`'name': count`. -/
def entryRepr (p : String × Nat) : String :=
  String.singleton squote ++ p.1 ++ String.singleton squote ++ ": " ++ toString p.2

/-- Python `repr` of the entries of the `nr_sequences` dict, joined by
`", "` (insertion order). -/
def entriesRepr : List (String × Nat) → String
  | [] => ""
  | [p] => entryRepr p
  | p :: q :: rest => entryRepr p ++ ", " ++ entriesRepr (q :: rest)

/-- Python `repr` of the `nr_sequences` dict, e.g. `{'a': 3, 'b': 4}`. -/
def dictRepr (ns : List (String × Nat)) : String :=
  "\x7b" ++ entriesRepr ns ++ "\x7d"

/-- Message of the missing-`shape` error:
`"{} has a wrong type. (no shape attribute)".format(name)`. -/
def noShapeMsg (name : String) : String :=
  name ++ " has a wrong type. (no shape attribute)"

/-- Message of the insufficient-rank error (a fixed string). -/
def rankMsg : String :=
  "All inputs have to have at least 3 dimensions, where the first two are time_size and batch_size."

/-- Message of the mismatched-sequence-counts error:
`'The number of sequences of all inputs must be equal, but got {}'.format(nr_sequences)`. -/
def mismatchMsg (ns : List (String × Nat)) : String :=
  "The number of sequences of all inputs must be equal, but got " ++ dictRepr ns

/-- The loop of `_assert_correct_data_format`: walks `named_data.items()`
in order, raises on a value without a `shape` attribute or with fewer than
3 axes, and otherwise records `nr_sequences[name] = data.shape[1]`.
Returns the `nr_sequences` association list in insertion order. -/
def gatherNrSequences : List (String × Value) → Except PyError (List (String × Nat))
  | [] => .ok []
  | (name, .noShape) :: _ => .error (.iteratorValidationError (noShapeMsg name))
  | (name, .arr s) :: rest =>
    if s.length < 3 then
      .error (.iteratorValidationError rankMsg)
    else
      match gatherNrSequences rest with
      | .error e => .error e
      | .ok ns => .ok ((name, s.getD 1 0) :: ns)

/-- `_assert_correct_data_format(named_data)`: after the loop, raises an
`IteratorValidationError` when `min(nr_sequences.values()) != max(...)`,
and otherwise returns `min(nr_sequences.values())`.  On an empty mapping
Python `min([])` raises `ValueError`. -/
def _assert_correct_data_format (nd : List (String × Value)) : Except PyError Nat :=
  match gatherNrSequences nd with
  | .error e => .error e
  | .ok ns =>
    match ns.map Prod.snd with
    | [] => .error (.valueError "min() arg is an empty sequence")
    | v :: vs =>
      if vs.foldl min v ≠ vs.foldl max v then
        .error (.iteratorValidationError (mismatchMsg ns))
      else .ok (vs.foldl min v)

/-- A value is rejected by the per-entry checks of the validator loop:
no `shape` attribute, or fewer than 3 axes. -/
def badEntry : Value → Bool
  | .noShape => true
  | .arr s => decide (s.length < 3)

/-- `shape[1]` of a value that has a shape, `none` otherwise. -/
def axis1? : Value → Option Nat
  | .noShape => none
  | .arr s => s.get? 1

/-- An ndarray stored by an iterator after validation.  The claims are
about shapes, provenance and allocation counts, so an array is modelled
by its shape. -/
structure Arr where
  shape : List Nat
deriving DecidableEq

/-- numpy `value.size`: the product of the axis extents. -/
def Arr.size (a : Arr) : Nat := a.shape.prod

/-- `d.shape[0] * np.prod(d.shape[2:])`: the element count of one
single-sequence column (numpy `prod` of an empty list is 1). -/
def Arr.sampleElems (a : Arr) : Nat := a.shape.headD 0 * (a.shape.drop 2).prod

/-- Extract the stored array from a validated value (the validator
guarantees every stored value is an `arr`). -/
def toArr : Value → Arr
  | .noShape => ⟨[]⟩
  | .arr s => ⟨s⟩

/-- A backend handler as consumed by the iterators.  `isInstance v`
models `isinstance(v, handler.array_type)` on an ndarray value;
`dictIsInstance` models the same test applied to a Python dict — for the
handlers described by the spec, whose `array_type` is a marker
identifying arrays, a dict is never an instance, so this is `false`.
`allocate` and `set_from_numpy` are modelled by recording allocation
sizes and staging provenance in the call trace. -/
structure Handler where
  isInstance : Arr → Bool
  dictIsInstance : Bool

/-- An array yielded inside a batch, with its provenance:
* `orig name shape` — the original ndarray object itself (yielded as part
  of the original dict);
* `view name lo hi shape` — `value[:, lo:hi]`, a numpy basic-slicing view
  aliasing the original array `name` (mutating the view mutates the
  source);
* `staged off shape` — `arr[off: off + size].reshape(shape)`: a slice of
  the flat buffer obtained from `handler.allocate`, filled from the host
  array by `handler.set_from_numpy`. -/
inductive BArr where
  | orig (src : String) (shape : List Nat)
  | view (src : String) (lo hi : Nat) (shape : List Nat)
  | staged (off : Nat) (shape : List Nat)
deriving DecidableEq

/-- The shape of a yielded array. -/
def BArr.shape : BArr → List Nat
  | .orig _ s => s
  | .view _ _ _ s => s
  | .staged _ s => s

/-- numpy basic slicing `v[:, a:b]` at the shape level: axis 1 is clipped
to `[min a n, min b n)` (out-of-range slices truncate, no padding); the
other axes are unchanged.  Meaningful for rank ≥ 2; the validator
guarantees rank ≥ 3. -/
def sliceAxis1 (s : List Nat) (a b : Nat) : List Nat :=
  match s with
  | s0 :: s1 :: rest => s0 :: (min b s1 - min a s1) :: rest
  | s => s

/-- The observable trace of one generator call: the sizes passed to
`handler.allocate`, the yielded batches in order, and the exception, if
any, that ends the generator after the recorded yields. -/
structure CallResult where
  allocations : List Nat
  batches : List (List (String × BArr))
  err : Option PyError
deriving DecidableEq

/-- Modelled from the spec: `Seedable` (`brainstorm.randomness`, not part
of the sources here) equips each iterator with a pseudorandom generator
`self.rnd` seeded at construction, whose state advances deterministically
across calls.  One step of the generator — a 64-bit LCG standing in for
numpy's `RandomState` stream. -/
def randStep (s : Nat) : Nat :=
  (6364136223846793005 * s + 1442695040888963407) % 2 ^ 64

/-- Modelled from the spec: `self.rnd.shuffle(indices)` applies a seeded
pseudorandom permutation in place, advancing the generator state.
Fisher–Yates style: draw a position, move that element to the front,
recurse on the rest.  `fuel` is instantiated with the list length. -/
def shuffleGo : Nat → Nat → List Nat → List Nat × Nat
  | 0, s, _ => ([], s)
  | _ + 1, s, [] => ([], s)
  | fuel + 1, s, x :: xs =>
    let l := x :: xs
    let s2 := randStep s
    let a := l.getD (s2 % l.length) 0
    let r := shuffleGo fuel s2 (l.erase a)
    (a :: r.1, r.2)

/-- `self.rnd.shuffle(l)`: the shuffled list and the advanced state. -/
def shuffleRnd (s : Nat) (l : List Nat) : List Nat × Nat := shuffleGo l.length s l

/-- The copying loop shared by `Online.__call__` and
`Minibatches.__call__`: for each `(key, value)` take the slice
`val_s = value[:, lo:hi]`, carve `arr[j: j + val_s.size]` out of the flat
buffer, reshape to `val_s.shape`, copy with `set_from_numpy`, and advance
`j` by `val_s.size`. -/
def stageSlices (j lo hi : Nat) : List (String × Arr) → List (String × BArr)
  | [] => []
  | (k, v) :: rest =>
    let shp := sliceAxis1 v.shape lo hi
    (k, .staged j shp) :: stageSlices (j + shp.prod) lo hi rest

/-- The copying loop of `Undivided.__call__`: whole arrays at cumulative
offsets, reshaped to `value.shape`, `i` advanced by `value.size`. -/
def stageFull (i : Nat) : List (String × Arr) → List (String × BArr)
  | [] => []
  | (k, v) :: rest => (k, .staged i v.shape) :: stageFull (i + v.size) rest

/-- The `Undivided` iterator: `self.data` and
`self.total_size = sum(d.size for d in self.data.values())`. -/
structure Undivided where
  data : List (String × Arr)
  total_size : Nat
deriving DecidableEq

/-- `Undivided.__init__(**named_data)`: runs the validator (errors
propagate) and stores the data and total element count. -/
def Undivided.init (nd : List (String × Value)) : Except PyError Undivided :=
  match _assert_correct_data_format nd with
  | .error e => .error e
  | .ok _ =>
    let data := nd.map (fun p => (p.1, toArr p.2))
    .ok ⟨data, (data.map (fun p => p.2.size)).sum⟩

/-- `Undivided.__call__(handler)`.  The source tests
`isinstance(self.data, handler.array_type)` on the *dict* `self.data`.
If that test is true it yields the original dict, and the trailing
`yield device_data` then reads the unbound local `device_data`, raising
`NameError` on the next resumption; otherwise it allocates one flat
buffer of `self.total_size` elements, stages every array into it at
cumulative offsets, and the trailing statement yields the staged mapping
once. -/
def Undivided.call (it : Undivided) (h : Handler) : CallResult :=
  if h.dictIsInstance then
    { allocations := [],
      batches := [it.data.map (fun p => (p.1, BArr.orig p.1 p.2.shape))],
      err := some (.nameError "local variable device_data referenced before assignment") }
  else
    { allocations := [it.total_size],
      batches := [stageFull 0 it.data],
      err := none }

/-- The `Online` iterator state: `nr_sequences` (the validator's result),
`self.data`, `self.shuffle`, the generator state `rnd` seeded by
`Seedable.__init__`, and
`sample_size = sum(d.shape[0] * np.prod(d.shape[2:]) for d in ...)`. -/
structure Online where
  nr_sequences : Nat
  data : List (String × Arr)
  shuffle : Bool
  rnd : Nat
  sample_size : Nat
deriving DecidableEq

/-- `Online.__init__(shuffle=..., seed=..., **named_data)`. -/
def Online.init (shuffle : Bool) (seed : Nat) (nd : List (String × Value)) :
    Except PyError Online :=
  match _assert_correct_data_format nd with
  | .error e => .error e
  | .ok n =>
    let data := nd.map (fun p => (p.1, toArr p.2))
    .ok { nr_sequences := n, data := data, shuffle := shuffle, rnd := seed,
          sample_size := (data.map (fun p => p.2.sampleElems)).sum }

/-- `indices = np.arange(self.nr_sequences)`, shuffled in place when
`self.shuffle` is set; returns the visiting order and the advanced
generator state. -/
def Online.callIndices (it : Online) : List Nat × Nat :=
  if it.shuffle then shuffleRnd it.rnd (List.range it.nr_sequences)
  else (List.range it.nr_sequences, it.rnd)

/-- `Online.__call__(handler)`: computes `need_copy` once from
`all([isinstance(v, handler.array_type) for v in self.data.values()])`,
allocates one flat buffer of `sample_size` elements when copying, and for
each `idx` of the visiting order yields `{k: v[:, idx: idx + 1]}` —
views in the zero-copy path, staged copies otherwise.  Returns the call
trace and the advanced generator state. -/
def Online.call (it : Online) (h : Handler) : CallResult × Nat :=
  let need_copy := ! it.data.all (fun p => h.isInstance p.2)
  let ix := Online.callIndices it
  let batches := ix.1.map (fun idx =>
    if need_copy then stageSlices 0 idx (idx + 1) it.data
    else it.data.map (fun p =>
      (p.1, BArr.view p.1 idx (idx + 1) (sliceAxis1 p.2.shape idx (idx + 1)))))
  ({ allocations := if need_copy then [it.sample_size] else [],
     batches := batches, err := none }, ix.2)

/-- The `Minibatches` iterator state; `sample_size` scales each array's
column size by `batch_size`. -/
structure Minibatches where
  nr_sequences : Nat
  data : List (String × Arr)
  shuffle : Bool
  batch_size : Nat
  rnd : Nat
  sample_size : Nat
deriving DecidableEq

/-- `Minibatches.__init__(batch_size=..., shuffle=..., seed=...,
**named_data)`: runs the validator; `batch_size` itself is not checked. -/
def Minibatches.init (batch_size : Nat) (shuffle : Bool) (seed : Nat)
    (nd : List (String × Value)) : Except PyError Minibatches :=
  match _assert_correct_data_format nd with
  | .error e => .error e
  | .ok n =>
    let data := nd.map (fun p => (p.1, toArr p.2))
    .ok { nr_sequences := n, data := data, shuffle := shuffle,
          batch_size := batch_size, rnd := seed,
          sample_size := (data.map (fun p => p.2.sampleElems * batch_size)).sum }

/-- `int(math.ceil(self.nr_sequences / self.batch_size))` for positive
`batch_size` (Python true division; exact at these magnitudes). -/
def numChunks (n b : Nat) : Nat := (n + b - 1) / b

/-- The axis-1 extent of chunk `idx` of `Minibatches`: the length of the
index range `[idx * B, (idx + 1) * B)` clipped to `[0, n)` by numpy
slicing (the final chunk may be shorter; no padding). -/
def chunkExtent (n B idx : Nat) : Nat :=
  min ((idx + 1) * B) n - min (idx * B) n

/-- `indices = np.arange(int(math.ceil(nr_sequences / batch_size)))`,
shuffled in place when `self.shuffle` is set.  Only meaningful for
positive `batch_size`. -/
def Minibatches.callIndices (it : Minibatches) : List Nat × Nat :=
  if it.shuffle then shuffleRnd it.rnd (List.range (numChunks it.nr_sequences it.batch_size))
  else (List.range (numChunks it.nr_sequences it.batch_size), it.rnd)

/-- `Minibatches.__call__(handler)`: computes `need_copy` and allocates
(when copying) first; then `self.nr_sequences / self.batch_size` raises
`ZeroDivisionError` when `batch_size` is 0, before the shuffle and before
any yield.  Otherwise each chunk index `idx` yields
`{k: v[:, idx * B: (idx + 1) * B]}` — views in the zero-copy path, staged
copies otherwise. -/
def Minibatches.call (it : Minibatches) (h : Handler) : CallResult × Nat :=
  let need_copy := ! it.data.all (fun p => h.isInstance p.2)
  let allocs := if need_copy then [it.sample_size] else []
  if it.batch_size = 0 then
    ({ allocations := allocs, batches := [],
       err := some (.zeroDivisionError "float division by zero") }, it.rnd)
  else
    let ix := Minibatches.callIndices it
    let b := it.batch_size
    let batches := ix.1.map (fun idx =>
      if need_copy then stageSlices 0 (idx * b) ((idx + 1) * b) it.data
      else it.data.map (fun p =>
        (p.1, BArr.view p.1 (idx * b) ((idx + 1) * b)
          (sliceAxis1 p.2.shape (idx * b) ((idx + 1) * b)))))
    ({ allocations := allocs, batches := batches, err := none }, ix.2)

/-- The visiting orders of the first `k` calls of an `Online` iterator,
threading the generator state that each call advances. -/
def Online.orders : Online → Nat → List (List Nat)
  | _, 0 => []
  | it, k + 1 =>
    let (ixs, s2) := Online.callIndices it
    ixs :: Online.orders { it with rnd := s2 } k

/-- The visiting orders of the first `k` calls of a `Minibatches`
iterator, threading the generator state that each call advances. -/
def Minibatches.orders : Minibatches → Nat → List (List Nat)
  | _, 0 => []
  | it, k + 1 =>
    let (ixs, s2) := Minibatches.callIndices it
    ixs :: Minibatches.orders { it with rnd := s2 } k

/-- `nr_sequences[name]` as recorded by the validator loop: `shape[1]`
(with a default that the loop never uses, since it only records values of
rank ≥ 3). -/
def axis1D : Value → Nat
  | .noShape => 0
  | .arr s => s.getD 1 0

lemma gather_isIVE : ∀ {nd : List (String × Value)} {e : PyError},
    gatherNrSequences nd = .error e → ∃ msg, e = .iteratorValidationError msg := by
  intro nd
  induction nd with
  | nil => intro e h; simp [gatherNrSequences] at h
  | cons hd tl ih =>
    intro e h
    obtain ⟨name, v⟩ := hd
    cases v with
    | noShape =>
      simp [gatherNrSequences] at h
      exact ⟨noShapeMsg name, h.symm⟩
    | arr s =>
      by_cases hl : s.length < 3
      · simp [gatherNrSequences, hl] at h
        exact ⟨rankMsg, h.symm⟩
      · simp only [gatherNrSequences, if_neg hl] at h
        cases hg : gatherNrSequences tl with
        | error e2 =>
          rw [hg] at h
          cases h
          exact ih hg
        | ok ns => rw [hg] at h; cases h

lemma gather_error_iff : ∀ {nd : List (String × Value)},
    (∃ e, gatherNrSequences nd = .error e) ↔ ∃ p ∈ nd, badEntry p.2 = true := by
  intro nd
  induction nd with
  | nil => simp [gatherNrSequences]
  | cons hd tl ih =>
    obtain ⟨name, v⟩ := hd
    cases v with
    | noShape => simp [gatherNrSequences, badEntry]
    | arr s =>
      by_cases hl : s.length < 3
      · simp [gatherNrSequences, hl, badEntry]
      · simp only [gatherNrSequences, if_neg hl]
        cases hg : gatherNrSequences tl with
        | error e2 =>
          simp only [List.mem_cons]
          constructor
          · intro _
            obtain ⟨p, hp, hbad⟩ := ih.1 ⟨e2, hg⟩
            exact ⟨p, Or.inr hp, hbad⟩
          · intro _; exact ⟨e2, rfl⟩
        | ok ns =>
          simp only [List.mem_cons]
          constructor
          · rintro ⟨e, he⟩; cases he
          · rintro ⟨p, hp, hbad⟩
            rcases hp with hp | hp
            · subst hp; simp [badEntry, hl] at hbad
            · obtain ⟨e, he⟩ := ih.2 ⟨p, hp, hbad⟩
              rw [he] at hg; cases hg

lemma gather_ok_spec : ∀ {nd : List (String × Value)} {ns : List (String × Nat)},
    gatherNrSequences nd = .ok ns →
    ns = nd.map (fun p => (p.1, axis1D p.2)) ∧ ∀ p ∈ nd, badEntry p.2 = false := by
  intro nd
  induction nd with
  | nil => intro ns h; simp [gatherNrSequences] at h; simp [h.symm]
  | cons hd tl ih =>
    intro ns h
    obtain ⟨name, v⟩ := hd
    cases v with
    | noShape => simp [gatherNrSequences] at h
    | arr s =>
      by_cases hl : s.length < 3
      · simp [gatherNrSequences, hl] at h
      · simp only [gatherNrSequences, if_neg hl] at h
        cases hg : gatherNrSequences tl with
        | error e2 => rw [hg] at h; cases h
        | ok ns2 =>
          rw [hg] at h
          cases h
          obtain ⟨hmap, hgood⟩ := ih hg
          refine ⟨by simp [hmap, axis1D], ?_⟩
          intro p hp
          rcases List.mem_cons.1 hp with hp | hp
          · subst hp; simp [badEntry, hl]
          · exact hgood p hp

lemma foldl_min_le : ∀ {vs : List Nat} {v x : Nat}, (x = v ∨ x ∈ vs) → vs.foldl min v ≤ x := by
  intro vs
  induction vs with
  | nil =>
    rintro v x (rfl | hx)
    · exact le_refl x
    · cases hx
  | cons a vs ih =>
    rintro v x (rfl | hx)
    · exact le_trans (ih (Or.inl rfl)) (min_le_left x a)
    · rcases List.mem_cons.1 hx with rfl | hx
      · exact le_trans (ih (Or.inl rfl)) (min_le_right v x)
      · exact ih (Or.inr hx)

lemma le_foldl_max : ∀ {vs : List Nat} {v x : Nat}, (x = v ∨ x ∈ vs) → x ≤ vs.foldl max v := by
  intro vs
  induction vs with
  | nil =>
    rintro v x (rfl | hx)
    · exact le_refl x
    · cases hx
  | cons a vs ih =>
    rintro v x (rfl | hx)
    · exact le_trans (le_max_left x a) (ih (Or.inl rfl))
    · rcases List.mem_cons.1 hx with rfl | hx
      · exact le_trans (le_max_right v x) (ih (Or.inl rfl))
      · exact ih (Or.inr hx)

lemma foldl_min_mem : ∀ {vs : List Nat} {v : Nat}, vs.foldl min v = v ∨ vs.foldl min v ∈ vs := by
  intro vs
  induction vs with
  | nil => intro v; exact Or.inl rfl
  | cons a vs ih =>
    intro v
    rcases @ih (min v a) with h | h
    · rcases min_choice v a with hm | hm
      · exact Or.inl (by rw [List.foldl_cons, h, hm])
      · exact Or.inr (by rw [List.foldl_cons, h, hm]; exact List.mem_cons_self a vs)
    · exact Or.inr (List.mem_cons_of_mem a h)

lemma foldl_max_mem : ∀ {vs : List Nat} {v : Nat}, vs.foldl max v = v ∨ vs.foldl max v ∈ vs := by
  intro vs
  induction vs with
  | nil => intro v; exact Or.inl rfl
  | cons a vs ih =>
    intro v
    rcases @ih (max v a) with h | h
    · rcases max_choice v a with hm | hm
      · exact Or.inl (by rw [List.foldl_cons, h, hm])
      · exact Or.inr (by rw [List.foldl_cons, h, hm]; exact List.mem_cons_self a vs)
    · exact Or.inr (List.mem_cons_of_mem a h)

lemma foldl_min_eq_max_iff {v : Nat} {vs : List Nat} :
    vs.foldl min v = vs.foldl max v ↔ ∀ x, x = v ∨ x ∈ vs → x = vs.foldl min v := by
  constructor
  · intro h x hx
    exact le_antisymm (le_of_le_of_eq (le_foldl_max hx) h.symm) (foldl_min_le hx)
  · intro h
    rcases @foldl_max_mem vs v with hm | hm
    · rw [← h _ (Or.inl hm)]  
    · rw [← h _ (Or.inr hm)]

lemma get?_one_of_len {s : List Nat} (h : 3 ≤ s.length) : s.get? 1 = some (s.getD 1 0) := by
  obtain ⟨a, b, c, t, rfl⟩ : ∃ a b c t, s = a :: b :: c :: t := by
    match s, h with
    | a :: b :: c :: t, _ => exact ⟨a, b, c, t, rfl⟩
  rfl

lemma axis1?_of_good {v : Value} (h : badEntry v = false) : axis1? v = some (axis1D v) := by
  cases v with
  | noShape => simp [badEntry] at h
  | arr s =>
    simp only [badEntry, decide_eq_false_iff_not, Nat.not_lt] at h
    obtain ⟨a, b, c, t, rfl⟩ : ∃ a b c t, s = a :: b :: c :: t := by
      match s, h with
      | a :: b :: c :: t, _ => exact ⟨a, b, c, t, rfl⟩
    rfl

lemma badEntry_cases {v : Value} (h : badEntry v = true) :
    v = Value.noShape ∨ ∃ s, v = Value.arr s ∧ s.length < 3 := by
  cases v with
  | noShape => exact Or.inl rfl
  | arr s =>
    simp only [badEntry, decide_eq_true_eq] at h
    exact Or.inr ⟨s, rfl, h⟩

lemma badEntry_of_cases {v : Value}
    (h : v = Value.noShape ∨ ∃ s, v = Value.arr s ∧ s.length < 3) : badEntry v = true := by
  rcases h with rfl | ⟨s, rfl, hl⟩
  · rfl
  · simp [badEntry, hl]

lemma axis1D_mem_vals {nd : List (String × Value)} {ns : List (String × Nat)}
    (hns : ns = nd.map (fun p => (p.1, axis1D p.2))) {p : String × Value} (hp : p ∈ nd) :
    axis1D p.2 ∈ ns.map Prod.snd := by
  subst hns
  rw [List.map_map]
  exact List.mem_map.2 ⟨p, hp, rfl⟩

lemma vals_mem_axis1D {nd : List (String × Value)} {ns : List (String × Nat)}
    (hns : ns = nd.map (fun p => (p.1, axis1D p.2))) {x : Nat} (hx : x ∈ ns.map Prod.snd) :
    ∃ p ∈ nd, axis1D p.2 = x := by
  subst hns
  rw [List.map_map] at hx
  obtain ⟨p, hp, hpx⟩ := List.mem_map.1 hx
  exact ⟨p, hp, hpx⟩

lemma assert_gather_error {nd : List (String × Value)} {e : PyError}
    (hg : gatherNrSequences nd = .error e) :
    _assert_correct_data_format nd = .error e := by
  unfold _assert_correct_data_format
  rw [hg]

lemma assert_gather_ok_nil {nd : List (String × Value)}
    (hg : gatherNrSequences nd = .ok []) :
    _assert_correct_data_format nd = .error (.valueError "min() arg is an empty sequence") := by
  unfold _assert_correct_data_format
  rw [hg]
  rfl

lemma assert_gather_ok_cons {nd : List (String × Value)} {p : String × Nat}
    {ps : List (String × Nat)} (hg : gatherNrSequences nd = .ok (p :: ps)) :
    _assert_correct_data_format nd =
      (if (ps.map Prod.snd).foldl min p.2 ≠ (ps.map Prod.snd).foldl max p.2 then
        .error (.iteratorValidationError (mismatchMsg (p :: ps)))
      else .ok ((ps.map Prod.snd).foldl min p.2)) := by
  unfold _assert_correct_data_format
  rw [hg]
  rfl

lemma assert_ok_shapes {nd : List (String × Value)} {n : Nat}
    (hok : _assert_correct_data_format nd = .ok n) :
    ∀ p ∈ nd, ∃ s, p.2 = Value.arr s ∧ 3 ≤ s.length ∧ s.get? 1 = some n := by
  intro p hp
  cases hg : gatherNrSequences nd with
  | error e => rw [assert_gather_error hg] at hok; cases hok
  | ok ns =>
    obtain ⟨hns, hgood⟩ := gather_ok_spec hg
    cases ns with
    | nil => rw [assert_gather_ok_nil hg] at hok; cases hok
    | cons u ps =>
      rw [assert_gather_ok_cons hg] at hok
      by_cases hne : (ps.map Prod.snd).foldl min u.2 ≠ (ps.map Prod.snd).foldl max u.2
      · rw [if_pos hne] at hok; cases hok
      · rw [if_neg hne] at hok
        have hn : n = (ps.map Prod.snd).foldl min u.2 := by cases hok; rfl
        push_neg at hne
        have hall := foldl_min_eq_max_iff.1 hne
        have hpg := hgood p hp
        cases hval : p.2 with
        | noShape => rw [hval] at hpg; simp [badEntry] at hpg
        | arr s =>
          have hlen : 3 ≤ s.length := by
            rw [hval] at hpg
            simp only [badEntry, decide_eq_false_iff_not, Nat.not_lt] at hpg
            exact hpg
          refine ⟨s, rfl, hlen, ?_⟩
          have hmem : axis1D p.2 ∈ (u :: ps).map Prod.snd := axis1D_mem_vals hns hp
          have heq := hall _ (List.mem_cons.1 hmem)
          rw [get?_one_of_len hlen]
          have hsd : s.getD 1 0 = n := by
            rw [hn, ← heq]
            simp [hval, axis1D]
          rw [hsd]

/-- Claim C1: for every mapping from names to values, the shape validator
raises `IteratorValidationError` iff some value lacks a shape attribute,
or some value has fewer than 3 axes, or two entries have differing axis-1
extents; and when it does not raise, the returned value is the common
axis-1 extent shared by all entries. -/
theorem claim_C1_validator (nd : List (String × Value)) :
    ((∃ msg, _assert_correct_data_format nd =
        .error (.iteratorValidationError msg)) ↔
      ((∃ p ∈ nd, p.2 = Value.noShape) ∨
       (∃ p ∈ nd, ∃ s, p.2 = Value.arr s ∧ s.length < 3) ∨
       (∃ p ∈ nd, ∃ q ∈ nd, ∃ a b,
         axis1? p.2 = some a ∧ axis1? q.2 = some b ∧ a ≠ b))) ∧
    (∀ n, _assert_correct_data_format nd = .ok n →
      ∀ p ∈ nd, ∃ s, p.2 = Value.arr s ∧ 3 ≤ s.length ∧ s.get? 1 = some n) := by
  constructor
  · constructor
    · rintro ⟨msg, hmsg⟩
      cases hg : gatherNrSequences nd with
      | error e =>
        obtain ⟨p, hp, hbad⟩ := gather_error_iff.1 ⟨e, hg⟩
        rcases badEntry_cases hbad with h | ⟨s, hs, hl⟩
        · exact Or.inl ⟨p, hp, h⟩
        · exact Or.inr (Or.inl ⟨p, hp, s, hs, hl⟩)
      | ok ns =>
        obtain ⟨hns, hgood⟩ := gather_ok_spec hg
        cases ns with
        | nil =>
          have h2 := (assert_gather_ok_nil hg).symm.trans hmsg
          simp at h2
        | cons p ps =>
          have h2 := (assert_gather_ok_cons hg).symm.trans hmsg
          by_cases hne : (ps.map Prod.snd).foldl min p.2 ≠ (ps.map Prod.snd).foldl max p.2
          · refine Or.inr (Or.inr ?_)
            have hmn : (ps.map Prod.snd).foldl min p.2 ∈ (p :: ps).map Prod.snd := by
              rcases @foldl_min_mem (ps.map Prod.snd) p.2 with h | h
              · rw [h]; exact List.mem_cons_self _ _
              · exact List.mem_cons_of_mem _ h
            have hmx : (ps.map Prod.snd).foldl max p.2 ∈ (p :: ps).map Prod.snd := by
              rcases @foldl_max_mem (ps.map Prod.snd) p.2 with h | h
              · rw [h]; exact List.mem_cons_self _ _
              · exact List.mem_cons_of_mem _ h
            obtain ⟨u, hu, huv⟩ := vals_mem_axis1D hns hmn
            obtain ⟨w, hw, hwv⟩ := vals_mem_axis1D hns hmx
            refine ⟨u, hu, w, hw, axis1D u.2, axis1D w.2,
              axis1?_of_good (hgood u hu), axis1?_of_good (hgood w hw), ?_⟩
            rw [huv, hwv]
            exact hne
          · rw [if_neg hne] at h2; cases h2
    · intro hdisj
      cases hg : gatherNrSequences nd with
      | error e =>
        obtain ⟨msg, hmsg⟩ := gather_isIVE hg
        exact ⟨msg, by rw [assert_gather_error hg, hmsg]⟩
      | ok ns =>
        obtain ⟨hns, hgood⟩ := gather_ok_spec hg
        rcases hdisj with ⟨p, hp, hv⟩ | ⟨p, hp, s, hs, hl⟩ | ⟨p, hp, q, hq, a, b, ha, hb, hab⟩
        · have := hgood p hp
          rw [badEntry_of_cases (Or.inl hv)] at this
          cases this
        · have := hgood p hp
          rw [badEntry_of_cases (Or.inr ⟨s, hs, hl⟩)] at this
          cases this
        · have hpa : axis1D p.2 = a := by
            have h3 := axis1?_of_good (hgood p hp)
            rw [h3] at ha
            exact Option.some_inj.1 ha
          have hqb : axis1D q.2 = b := by
            have h3 := axis1?_of_good (hgood q hq)
            rw [h3] at hb
            exact Option.some_inj.1 hb
          cases ns with
          | nil =>
            exfalso
            have := axis1D_mem_vals hns hp
            simp at this
          | cons u ps =>
            have hamem : a ∈ (u :: ps).map Prod.snd := hpa ▸ axis1D_mem_vals hns hp
            have hbmem : b ∈ (u :: ps).map Prod.snd := hqb ▸ axis1D_mem_vals hns hq
            have hne : (ps.map Prod.snd).foldl min u.2 ≠ (ps.map Prod.snd).foldl max u.2 := by
              intro heq
              have hall := foldl_min_eq_max_iff.1 heq
              have haeq := hall a (List.mem_cons.1 hamem)
              have hbeq := hall b (List.mem_cons.1 hbmem)
              exact hab (haeq.trans hbeq.symm)
            rw [assert_gather_ok_cons hg, if_pos hne]
            exact ⟨mismatchMsg (u :: ps), rfl⟩
  · intro n hok p hp
    exact assert_ok_shapes hok p hp

/-- Instance of claim C1 at a concrete two-entry dataset with common
axis-1 extent 3. -/
theorem claim_C1_validator_witness :
    ∃ s, (Value.arr [2, 3, 4]) = Value.arr s ∧ 3 ≤ s.length ∧ s.get? 1 = some 3 :=
  (claim_C1_validator [("a", Value.arr [2, 3, 4]), ("b", Value.arr [7, 3, 9])]).2 3
    rfl ("a", Value.arr [2, 3, 4]) (by simp)

lemma gather_error_msg : ∀ {nd : List (String × Value)} {msg : String},
    gatherNrSequences nd = .error (.iteratorValidationError msg) →
    (∃ p ∈ nd, p.2 = Value.noShape ∧ msg = noShapeMsg p.1) ∨ msg = rankMsg := by
  intro nd
  induction nd with
  | nil => intro msg h; simp [gatherNrSequences] at h
  | cons hd tl ih =>
    intro msg h
    obtain ⟨name, v⟩ := hd
    cases v with
    | noShape =>
      simp [gatherNrSequences] at h
      exact Or.inl ⟨(name, Value.noShape), List.mem_cons_self _ _, rfl, h.symm⟩
    | arr s =>
      by_cases hl : s.length < 3
      · simp [gatherNrSequences, hl] at h
        exact Or.inr h.symm
      · simp only [gatherNrSequences, if_neg hl] at h
        cases hg : gatherNrSequences tl with
        | error e =>
          rw [hg] at h
          cases h
          rcases ih hg with ⟨p, hp, hv, hm⟩ | hm
          · exact Or.inl ⟨p, List.mem_cons_of_mem _ hp, hv, hm⟩
          · exact Or.inr hm
        | ok ns => rw [hg] at h; cases h

lemma name_infix_entryRepr (p : String × Nat) : p.1.data <:+: (entryRepr p).data := by
  refine ⟨(String.singleton squote).data,
    (String.singleton squote ++ ": " ++ toString p.2).data, ?_⟩
  simp [entryRepr, String.data_append, List.append_assoc]

lemma count_suffix_entryRepr (p : String × Nat) : (toString p.2).data <:+: (entryRepr p).data := by
  refine ⟨(String.singleton squote ++ p.1 ++ String.singleton squote ++ ": ").data, [], ?_⟩
  simp [entryRepr, String.data_append, List.append_assoc]

lemma infix_entriesRepr : ∀ {ns : List (String × Nat)} {p : String × Nat}, p ∈ ns →
    (entryRepr p).data <:+: (entriesRepr ns).data := by
  intro ns
  induction ns with
  | nil => intro p hp; cases hp
  | cons q tl ih =>
    intro p hp
    cases tl with
    | nil =>
      rcases List.mem_cons.1 hp with rfl | hp
      · exact List.infix_refl _
      · cases hp
    | cons r rest =>
      rcases List.mem_cons.1 hp with rfl | hp
      · refine ⟨[], (", " ++ entriesRepr (r :: rest)).data, ?_⟩
        simp [entriesRepr, String.data_append, List.append_assoc]
      · refine List.IsInfix.trans (ih hp) ?_
        refine ⟨(entryRepr q ++ ", ").data, [], ?_⟩
        simp [entriesRepr, String.data_append, List.append_assoc]

lemma infix_mismatchMsg {ns : List (String × Nat)} {p : String × Nat} (hp : p ∈ ns) :
    p.1.data <:+: (mismatchMsg ns).data ∧
    (toString p.2).data <:+: (mismatchMsg ns).data := by
  have hmid : (entriesRepr ns).data <:+: (mismatchMsg ns).data := by
    refine ⟨("The number of sequences of all inputs must be equal, but got " ++ "\x7b").data,
      ("\x7d" : String).data, ?_⟩
    simp [mismatchMsg, dictRepr, String.data_append, List.append_assoc]
  exact ⟨((name_infix_entryRepr p).trans (infix_entriesRepr hp)).trans hmid,
    ((count_suffix_entryRepr p).trans (infix_entriesRepr hp)).trans hmid⟩

set_option maxRecDepth 4000

/-- Claim C8, as stated, is false: the insufficient-rank validation error
has a fixed generic message that names neither the offending entry nor
any counts.  A single rank-2 array named `QQ` raises a validation error
whose message does not contain `QQ` (and there are no mismatching counts
at this input). -/
theorem claim_C8_counterexample :
    _assert_correct_data_format [("QQ", Value.arr [5, 3])] =
      .error (.iteratorValidationError rankMsg) ∧
    ¬ ("QQ".data <:+: rankMsg.data) := by
  refine ⟨rfl, ?_⟩
  decide

/-- Claim C8, amended: every validation error raised at construction
other than the fixed-message insufficient-rank error includes the
offending name(s) and/or the mismatching counts: the missing-shape error
message is built from the offending entry's name, and the
mismatched-counts error message contains every entry's name and its
axis-1 count — in particular, with two named arrays whose axis-1 extents
differ it names both counts. -/
theorem claim_C8_amended_messages (nd : List (String × Value)) (msg : String)
    (hmsg : _assert_correct_data_format nd = .error (.iteratorValidationError msg))
    (hrank : msg ≠ rankMsg) :
    (∃ p ∈ nd, p.2 = Value.noShape ∧ msg = noShapeMsg p.1 ∧ p.1.data <:+: msg.data) ∨
    (∃ ns, gatherNrSequences nd = .ok ns ∧ msg = mismatchMsg ns ∧
      ∀ p ∈ ns, p.1.data <:+: msg.data ∧ (toString p.2).data <:+: msg.data) := by
  cases hg : gatherNrSequences nd with
  | error e =>
    have he := (assert_gather_error hg).symm.trans hmsg
    cases he
    rcases gather_error_msg hg with ⟨p, hp, hv, hm⟩ | hm
    · refine Or.inl ⟨p, hp, hv, hm, ?_⟩
      rw [hm]
      exact ⟨[], (" has a wrong type. (no shape attribute)" : String).data,
        by simp [noShapeMsg, String.data_append]⟩
    · exact absurd hm hrank
  | ok ns =>
    cases ns with
    | nil =>
      have h2 := (assert_gather_ok_nil hg).symm.trans hmsg
      simp at h2
    | cons u ps =>
      have h2 := (assert_gather_ok_cons hg).symm.trans hmsg
      by_cases hne : (ps.map Prod.snd).foldl min u.2 ≠ (ps.map Prod.snd).foldl max u.2
      · rw [if_pos hne] at h2
        have hm : msg = mismatchMsg (u :: ps) := by
          injection h2 with h3
          injection h3 with h4
          exact h4.symm
        refine Or.inr ⟨u :: ps, rfl, hm, ?_⟩
        intro p hp
        rw [hm]
        exact infix_mismatchMsg hp
      · rw [if_neg hne] at h2; cases h2

/-- Instance of the amended claim C8 at two named arrays of shapes
`(5, 3, 2)` and `(5, 4, 2)`: the validation error message contains both
counts. -/
theorem claim_C8_amended_messages_witness :
    (∃ p ∈ [("a", Value.arr [5, 3, 2]), ("b", Value.arr [5, 4, 2])],
      p.2 = Value.noShape ∧ mismatchMsg [("a", 3), ("b", 4)] = noShapeMsg p.1 ∧
      p.1.data <:+: (mismatchMsg [("a", 3), ("b", 4)]).data) ∨
    (∃ ns, gatherNrSequences [("a", Value.arr [5, 3, 2]), ("b", Value.arr [5, 4, 2])] = .ok ns ∧
      mismatchMsg [("a", 3), ("b", 4)] = mismatchMsg ns ∧
      ∀ p ∈ ns, p.1.data <:+: (mismatchMsg [("a", 3), ("b", 4)]).data ∧
        (toString p.2).data <:+: (mismatchMsg [("a", 3), ("b", 4)]).data) :=
  claim_C8_amended_messages [("a", Value.arr [5, 3, 2]), ("b", Value.arr [5, 4, 2])]
    (mismatchMsg [("a", 3), ("b", 4)]) (by rfl) (by decide)

/-- Claim C10: constructing any of the three iterators with an empty
named dataset does not raise a validation error — the per-entry checks
pass vacuously and `min()` over the empty collection of sequence counts
raises `ValueError` instead, which the constructors propagate. -/
theorem claim_C10_empty_dataset (sh : Bool) (seed B : Nat) :
    _assert_correct_data_format [] = .error (.valueError "min() arg is an empty sequence") ∧
    Undivided.init [] = .error (.valueError "min() arg is an empty sequence") ∧
    Online.init sh seed [] = .error (.valueError "min() arg is an empty sequence") ∧
    Minibatches.init B sh seed [] = .error (.valueError "min() arg is an empty sequence") :=
  ⟨rfl, rfl, rfl, rfl⟩

/-- Claim C2 is contradicted by the code: `Undivided.__call__` tests
`isinstance(self.data, handler.array_type)` on the dict `self.data`
itself, never on the arrays, so with a valid dataset whose single array
is backend-resident and a handler whose marker type matches every array
but (as for any real handler) not a dict, the call still allocates a
buffer of the total size and yields a staged copy instead of the original
mapping. -/
theorem claim_C2_undivided_copies_resident :
    (Undivided.init [("x", Value.arr [1, 1, 1])]).map
        (fun it => Undivided.call it ⟨fun _ => true, false⟩) =
      .ok { allocations := [1],
            batches := [[("x", BArr.staged 0 [1, 1, 1])]],
            err := none } := rfl

@[simp] lemma BArr.shape_orig (src : String) (s : List Nat) :
    BArr.shape (.orig src s) = s := rfl

@[simp] lemma BArr.shape_view (src : String) (lo hi : Nat) (s : List Nat) :
    BArr.shape (.view src lo hi s) = s := rfl

@[simp] lemma BArr.shape_staged (off : Nat) (s : List Nat) :
    BArr.shape (.staged off s) = s := rfl

lemma stageFull_shapes : ∀ (data : List (String × Arr)) (i : Nat),
    (stageFull i data).map (fun p => (p.1, BArr.shape p.2)) =
      data.map (fun p => (p.1, p.2.shape)) := by
  intro data
  induction data with
  | nil => intro i; rfl
  | cons hd tl ih =>
    obtain ⟨k, v⟩ := hd
    intro i
    simp [stageFull, ih]

/-- Claim C3: one call of a validly constructed `Undivided` iterator, on
any handler, yields exactly one batch, and that batch maps the same
names, in order, to arrays whose shapes equal the original shapes. -/
theorem claim_C3_undivided_one_batch (nd : List (String × Value)) (it : Undivided)
    (h : Handler) (hok : Undivided.init nd = .ok it) :
    (Undivided.call it h).batches.length = 1 ∧
    (Undivided.call it h).batches.map (fun b => b.map (fun p => (p.1, BArr.shape p.2))) =
      [it.data.map (fun p => (p.1, p.2.shape))] := by
  unfold Undivided.call
  by_cases hd : h.dictIsInstance
  · rw [if_pos hd]
    refine ⟨rfl, ?_⟩
    simp [BArr.shape]
  · rw [if_neg hd]
    refine ⟨rfl, ?_⟩
    simp [stageFull_shapes]

/-- Instance of claim C3 at a concrete one-entry dataset and a handler
with no resident arrays. -/
theorem claim_C3_undivided_one_batch_witness :
    (Undivided.call ⟨[("x", ⟨[2, 3, 4]⟩)], 24⟩ ⟨fun _ => false, false⟩).batches.length = 1 ∧
    (Undivided.call ⟨[("x", ⟨[2, 3, 4]⟩)], 24⟩ ⟨fun _ => false, false⟩).batches.map
        (fun b => b.map (fun p => (p.1, BArr.shape p.2))) =
      [[("x", [2, 3, 4])]] :=
  claim_C3_undivided_one_batch [("x", Value.arr [2, 3, 4])]
    ⟨[("x", ⟨[2, 3, 4]⟩)], 24⟩ ⟨fun _ => false, false⟩ rfl

lemma shuffleGo_fst : ∀ (fuel s : Nat) (x : Nat) (xs : List Nat),
    (shuffleGo (fuel + 1) s (x :: xs)).1 =
      (x :: xs).getD (randStep s % (x :: xs).length) 0 ::
        (shuffleGo fuel (randStep s)
          ((x :: xs).erase ((x :: xs).getD (randStep s % (x :: xs).length) 0))).1 := by
  intro fuel s x xs
  rfl

lemma shuffleGo_perm : ∀ (fuel : Nat) (s : Nat) (l : List Nat), l.length ≤ fuel →
    (shuffleGo fuel s l).1.Perm l := by
  intro fuel
  induction fuel with
  | zero =>
    intro s l hl
    have : l = [] := List.eq_nil_of_length_eq_zero (Nat.le_zero.1 hl)
    subst this
    exact List.Perm.refl _
  | succ fuel ih =>
    intro s l hl
    cases l with
    | nil => exact List.Perm.refl _
    | cons x xs =>
      have hlt : randStep s % (x :: xs).length < (x :: xs).length :=
        Nat.mod_lt _ (by simp)
      have ha : (x :: xs).getD (randStep s % (x :: xs).length) 0 ∈ x :: xs := by
        rw [List.getD_eq_getElem _ _ hlt]
        exact List.getElem_mem hlt
      have hlen : ((x :: xs).erase ((x :: xs).getD (randStep s % (x :: xs).length) 0)).length ≤ fuel := by
        rw [List.length_erase_of_mem ha]
        simpa using Nat.le_of_succ_le_succ hl
      rw [shuffleGo_fst]
      exact ((ih (randStep s) _ hlen).cons _).trans (List.perm_cons_erase ha).symm

lemma shuffleRnd_perm (s : Nat) (l : List Nat) : (shuffleRnd s l).1.Perm l :=
  shuffleGo_perm l.length s l (le_refl _)

lemma online_callIndices_perm (it : Online) :
    (Online.callIndices it).1.Perm (List.range it.nr_sequences) := by
  unfold Online.callIndices
  by_cases hs : it.shuffle
  · rw [if_pos hs]; exact shuffleRnd_perm _ _
  · rw [if_neg hs]

lemma minibatches_callIndices_perm (it : Minibatches) :
    (Minibatches.callIndices it).1.Perm
      (List.range (numChunks it.nr_sequences it.batch_size)) := by
  unfold Minibatches.callIndices
  by_cases hs : it.shuffle
  · rw [if_pos hs]; exact shuffleRnd_perm _ _
  · rw [if_neg hs]

lemma online_init_spec {sh : Bool} {seed : Nat} {nd : List (String × Value)} {it : Online}
    (hok : Online.init sh seed nd = .ok it) :
    it.data = nd.map (fun p => (p.1, toArr p.2)) ∧ it.shuffle = sh ∧ it.rnd = seed ∧
    _assert_correct_data_format nd = .ok it.nr_sequences := by
  unfold Online.init at hok
  cases ha : _assert_correct_data_format nd with
  | error e => rw [ha] at hok; cases hok
  | ok n =>
    rw [ha] at hok
    cases hok
    exact ⟨rfl, rfl, rfl, rfl⟩

lemma minibatches_init_spec {B : Nat} {sh : Bool} {seed : Nat} {nd : List (String × Value)}
    {it : Minibatches} (hok : Minibatches.init B sh seed nd = .ok it) :
    it.data = nd.map (fun p => (p.1, toArr p.2)) ∧ it.shuffle = sh ∧ it.rnd = seed ∧
    it.batch_size = B ∧ _assert_correct_data_format nd = .ok it.nr_sequences := by
  unfold Minibatches.init at hok
  cases ha : _assert_correct_data_format nd with
  | error e => rw [ha] at hok; cases hok
  | ok n =>
    rw [ha] at hok
    cases hok
    exact ⟨rfl, rfl, rfl, rfl, rfl⟩

lemma shape_decomp {s : List Nat} {n : Nat} (hl : 3 ≤ s.length) (h1 : s.get? 1 = some n) :
    ∃ s0 s2 t, s = s0 :: n :: s2 :: t := by
  match s, hl with
  | a :: b :: c :: t, _ =>
    refine ⟨a, c, t, ?_⟩
    have hb : b = n := by
      injection h1
    rw [hb]

lemma data_shapes_of_assert {nd : List (String × Value)} {n : Nat}
    (hok : _assert_correct_data_format nd = .ok n) :
    ∀ q ∈ nd.map (fun p => (p.1, toArr p.2)), ∃ s0 s2 t, q.2.shape = s0 :: n :: s2 :: t := by
  intro q hq
  obtain ⟨p, hp, rfl⟩ := List.mem_map.1 hq
  obtain ⟨s, hv, hl, h1⟩ := assert_ok_shapes hok p hp
  obtain ⟨s0, s2, t, hs⟩ := shape_decomp hl h1
  exact ⟨s0, s2, t, by simp [hv, toArr, hs]⟩

lemma sliceAxis1_single {s0 n s2 : Nat} {t : List Nat} {idx : Nat} (hidx : idx < n) :
    sliceAxis1 (s0 :: n :: s2 :: t) idx (idx + 1) = s0 :: 1 :: s2 :: t := by
  simp only [sliceAxis1]
  congr 1
  congr 1
  omega

lemma stageSlices_extents : ∀ (data : List (String × Arr)) (j lo hi : Nat),
    (stageSlices j lo hi data).map (fun p => (BArr.shape p.2).get? 1) =
      data.map (fun p => (sliceAxis1 p.2.shape lo hi).get? 1) := by
  intro data
  induction data with
  | nil => intro j lo hi; rfl
  | cons hd tl ih =>
    obtain ⟨k, v⟩ := hd
    intro j lo hi
    simp only [stageSlices, List.map_cons, BArr.shape_staged]
    rw [ih]

lemma online_call_batches (it : Online) (h : Handler) :
    (Online.call it h).1.batches =
      (Online.callIndices it).1.map (fun idx =>
        if ! it.data.all (fun p => h.isInstance p.2) then stageSlices 0 idx (idx + 1) it.data
        else it.data.map (fun p =>
          (p.1, BArr.view p.1 idx (idx + 1) (sliceAxis1 p.2.shape idx (idx + 1))))) := rfl

/-- Claim C4: one call of a validly constructed `Online` iterator with
sequence count N yields exactly N batches (none when N = 0); every array
of every batch has axis-1 extent 1; and the visited sequence indices are
a permutation of `0..N-1`. -/
theorem claim_C4_online (sh : Bool) (seed : Nat) (nd : List (String × Value))
    (it : Online) (h : Handler) (hok : Online.init sh seed nd = .ok it) :
    (Online.call it h).1.batches.length = it.nr_sequences ∧
    (Online.call it h).1.batches.map (fun b => b.map (fun p => (BArr.shape p.2).get? 1)) =
      List.replicate it.nr_sequences (it.data.map (fun _ => some 1)) ∧
    (Online.callIndices it).1.Perm (List.range it.nr_sequences) := by
  obtain ⟨hdata, -, -, hassert⟩ := online_init_spec hok
  have hperm := online_callIndices_perm it
  have hlen : (Online.callIndices it).1.length = it.nr_sequences := by
    simpa using hperm.length_eq
  have hshapes : ∀ q ∈ it.data, ∃ s0 s2 t, q.2.shape = s0 :: it.nr_sequences :: s2 :: t := by
    rw [hdata]
    exact data_shapes_of_assert hassert
  refine ⟨?_, ?_, hperm⟩
  · rw [online_call_batches, List.length_map, hlen]
  · rw [online_call_batches, List.map_map]
    refine List.eq_replicate_iff.2 ⟨by simp [hlen], ?_⟩
    intro sig hsig
    obtain ⟨idx, hidx, rfl⟩ := List.mem_map.1 hsig
    have hidxN : idx < it.nr_sequences := by
      have := hperm.mem_iff.1 hidx
      simpa using this
    have hentry : ∀ q ∈ it.data, (sliceAxis1 q.2.shape idx (idx + 1)).get? 1 = some 1 := by
      intro q hq
      obtain ⟨s0, s2, t, hs⟩ := hshapes q hq
      rw [hs, sliceAxis1_single hidxN]
      rfl
    simp only [Function.comp]
    by_cases hall : it.data.all (fun p => h.isInstance p.2)
    · rw [hall]
      simp only [Bool.not_true, Bool.false_eq_true, if_false, List.map_map]
      refine List.map_congr_left ?_
      intro q hq
      simp only [Function.comp]
      rw [BArr.shape_view]
      exact hentry q hq
    · rw [Bool.not_eq_true] at hall
      rw [hall]
      simp only [Bool.not_false, if_true, stageSlices_extents]
      refine List.map_congr_left ?_
      intro q hq
      exact hentry q hq

/-- Instance of claim C4 at a one-entry dataset with 3 sequences,
no shuffling, and a handler with no resident arrays. -/
theorem claim_C4_online_witness :
    (Online.call ⟨3, [("x", ⟨[2, 3, 4]⟩)], false, 0, 8⟩ ⟨fun _ => false, false⟩).1.batches.length = 3 ∧
    (Online.call ⟨3, [("x", ⟨[2, 3, 4]⟩)], false, 0, 8⟩ ⟨fun _ => false, false⟩).1.batches.map
        (fun b => b.map (fun p => (BArr.shape p.2).get? 1)) =
      List.replicate 3 [some 1] ∧
    (Online.callIndices ⟨3, [("x", ⟨[2, 3, 4]⟩)], false, 0, 8⟩).1.Perm (List.range 3) :=
  claim_C4_online false 0 [("x", Value.arr [2, 3, 4])]
    ⟨3, [("x", ⟨[2, 3, 4]⟩)], false, 0, 8⟩ ⟨fun _ => false, false⟩ rfl

/-- Claim C6: with shuffling disabled, the visiting order of both
`Online` and `Minibatches` is the strictly increasing enumeration of all
sample/chunk indices; with a fixed seed, two iterator instances
constructed from the same seed and the same data produce identical
orderings on all corresponding calls (the generator state advances
identically across calls). -/
theorem claim_C6_order_determinism :
    (∀ it : Online, it.shuffle = false →
      (Online.callIndices it).1.Sorted (· < ·) ∧
      (Online.callIndices it).1 = List.range it.nr_sequences) ∧
    (∀ it : Minibatches, it.shuffle = false →
      (Minibatches.callIndices it).1.Sorted (· < ·) ∧
      (Minibatches.callIndices it).1 = List.range (numChunks it.nr_sequences it.batch_size)) ∧
    (∀ (sh : Bool) (seed : Nat) (nd : List (String × Value)) (it1 it2 : Online),
      Online.init sh seed nd = .ok it1 → Online.init sh seed nd = .ok it2 →
      ∀ k, Online.orders it1 k = Online.orders it2 k) ∧
    (∀ (B : Nat) (sh : Bool) (seed : Nat) (nd : List (String × Value)) (it1 it2 : Minibatches),
      Minibatches.init B sh seed nd = .ok it1 → Minibatches.init B sh seed nd = .ok it2 →
      ∀ k, Minibatches.orders it1 k = Minibatches.orders it2 k) := by
  refine ⟨?_, ?_, ?_, ?_⟩
  · intro it hs
    have hr : (Online.callIndices it).1 = List.range it.nr_sequences := by
      unfold Online.callIndices
      rw [hs]
      rfl
    exact ⟨hr ▸ List.sorted_lt_range _, hr⟩
  · intro it hs
    have hr : (Minibatches.callIndices it).1 =
        List.range (numChunks it.nr_sequences it.batch_size) := by
      unfold Minibatches.callIndices
      rw [hs]
      rfl
    exact ⟨hr ▸ List.sorted_lt_range _, hr⟩
  · intro sh seed nd it1 it2 h1 h2 k
    have : it1 = it2 := by
      have h3 := h1.symm.trans h2
      injection h3
    rw [this]
  · intro B sh seed nd it1 it2 h1 h2 k
    have : it1 = it2 := by
      have h3 := h1.symm.trans h2
      injection h3
    rw [this]

/-- Instance of claim C6: an unshuffled `Online` iterator visits `0, 1, 2`
in order, and two `Minibatches` instances from seed 7 agree on their
first two calls. -/
theorem claim_C6_order_determinism_witness :
    (Online.callIndices ⟨3, [("x", ⟨[2, 3, 4]⟩)], false, 0, 8⟩).1 = List.range 3 ∧
    Minibatches.orders ⟨3, [("x", ⟨[5, 3, 2]⟩)], true, 2, 7, 20⟩ 2 =
      Minibatches.orders ⟨3, [("x", ⟨[5, 3, 2]⟩)], true, 2, 7, 20⟩ 2 :=
  ⟨(claim_C6_order_determinism.1 ⟨3, [("x", ⟨[2, 3, 4]⟩)], false, 0, 8⟩ rfl).2,
    claim_C6_order_determinism.2.2.2 2 true 7 [("x", Value.arr [5, 3, 2])]
      ⟨3, [("x", ⟨[5, 3, 2]⟩)], true, 2, 7, 20⟩ ⟨3, [("x", ⟨[5, 3, 2]⟩)], true, 2, 7, 20⟩
      rfl rfl 2⟩

/-- Claim C9: over any valid named dataset, a `Minibatches` iterator with
`batch_size = 0` constructs successfully, and every call of it fails with
`ZeroDivisionError` (from `nr_sequences / batch_size`) before yielding
any batch. -/
theorem claim_C9_zero_batch_size (sh : Bool) (seed : Nat) (nd : List (String × Value))
    (n : Nat) (h : Handler) (hv : _assert_correct_data_format nd = .ok n) :
    ∃ it, Minibatches.init 0 sh seed nd = .ok it ∧
      (Minibatches.call it h).1.batches = [] ∧
      (Minibatches.call it h).1.err = some (.zeroDivisionError "float division by zero") := by
  refine ⟨{ nr_sequences := n, data := nd.map (fun p => (p.1, toArr p.2)), shuffle := sh,
            batch_size := 0, rnd := seed,
            sample_size := ((nd.map (fun p => (p.1, toArr p.2))).map
              (fun p => p.2.sampleElems * 0)).sum }, ?_, rfl, rfl⟩
  unfold Minibatches.init
  rw [hv]

/-- Instance of claim C9 at a concrete dataset with 3 sequences. -/
theorem claim_C9_zero_batch_size_witness :
    ∃ it, Minibatches.init 0 false 0 [("x", Value.arr [2, 3, 4])] = .ok it ∧
      (Minibatches.call it ⟨fun _ => false, false⟩).1.batches = [] ∧
      (Minibatches.call it ⟨fun _ => false, false⟩).1.err =
        some (.zeroDivisionError "float division by zero") :=
  claim_C9_zero_batch_size false 0 [("x", Value.arr [2, 3, 4])] 3 ⟨fun _ => false, false⟩ rfl

lemma sliceAxis1_get1 (s0 n s2 : Nat) (t : List Nat) (a b : Nat) :
    (sliceAxis1 (s0 :: n :: s2 :: t) a b).get? 1 = some (min b n - min a n) := rfl

lemma numChunks_mul_ge {n B : Nat} (hB : 0 < B) : n ≤ numChunks n B * B := by
  unfold numChunks
  have hd := Nat.div_add_mod (n + B - 1) B
  have hm : (n + B - 1) % B < B := Nat.mod_lt _ hB
  have he : (n + B - 1) / B * B = B * ((n + B - 1) / B) := Nat.mul_comm _ _
  omega

lemma chunkExtent_sum (n B : Nat) (hB : 0 < B) :
    ((List.range (numChunks n B)).map (chunkExtent n B)).sum = n := by
  have key : ∀ k : Nat, ((List.range k).map (chunkExtent n B)).sum = min (k * B) n := by
    intro k
    induction k with
    | zero => simp
    | succ k ih =>
      rw [List.range_succ, List.map_append, List.sum_append]
      have hmul : k * B ≤ (k + 1) * B := Nat.mul_le_mul_right _ (Nat.le_succ k)
      simp only [List.map_cons, List.map_nil, List.sum_cons, List.sum_nil]
      rw [ih]
      unfold chunkExtent
      omega
  rw [key]
  have hge := numChunks_mul_ge (n := n) hB
  omega

lemma chunkExtent_eq_B {n B idx : Nat} (hB : 0 < B) (h : idx + 1 < numChunks n B) :
    chunkExtent n B idx = B := by
  unfold numChunks at h
  have hd := Nat.div_add_mod (n + B - 1) B
  have hm : (n + B - 1) % B < B := Nat.mod_lt _ hB
  have e1 : (idx + 1) * B = idx * B + B := Nat.succ_mul idx B
  have e2 : (idx + 2) * B = idx * B + B + B := by ring
  have hle : idx + 2 ≤ (n + B - 1) / B := h
  have e3 : (idx + 2) * B ≤ (n + B - 1) / B * B := Nat.mul_le_mul_right _ hle
  have e4 : (n + B - 1) / B * B = B * ((n + B - 1) / B) := Nat.mul_comm _ _
  unfold chunkExtent
  omega

lemma minibatches_call_batches (it : Minibatches) (h : Handler) (hB : it.batch_size ≠ 0) :
    (Minibatches.call it h).1.batches =
      (Minibatches.callIndices it).1.map (fun idx =>
        if ! it.data.all (fun p => h.isInstance p.2) then
          stageSlices 0 (idx * it.batch_size) ((idx + 1) * it.batch_size) it.data
        else it.data.map (fun p =>
          (p.1, BArr.view p.1 (idx * it.batch_size) ((idx + 1) * it.batch_size)
            (sliceAxis1 p.2.shape (idx * it.batch_size) ((idx + 1) * it.batch_size))))) := by
  unfold Minibatches.call
  rw [if_neg hB]

lemma minibatches_call_allocations (it : Minibatches) (h : Handler) :
    (Minibatches.call it h).1.allocations =
      if ! it.data.all (fun p => h.isInstance p.2) then [it.sample_size] else [] := by
  unfold Minibatches.call
  by_cases hB : it.batch_size = 0
  · rw [if_pos hB]
  · rw [if_neg hB]

lemma online_call_allocations (it : Online) (h : Handler) :
    (Online.call it h).1.allocations =
      if ! it.data.all (fun p => h.isInstance p.2) then [it.sample_size] else [] := rfl

/-- Claim C5, as stated, is false when shuffling reorders the chunks:
with N = 3 sequences, batch_size B = 2, shuffle enabled and seed 0, the
chunk order is `[1, 0]`, so the FIRST yielded batch is the short final
chunk with axis-1 extent 1 ≠ B, although it is not the last one yielded
(the batch count ceil(3/2) = 2 and the extent sum 1 + 2 = 3 do hold). -/
theorem claim_C5_counterexample :
    Minibatches.init 2 true 0 [("x", Value.arr [5, 3, 2])] =
      .ok ⟨3, [("x", ⟨[5, 3, 2]⟩)], true, 2, 0, 20⟩ ∧
    (Minibatches.call ⟨3, [("x", ⟨[5, 3, 2]⟩)], true, 2, 0, 20⟩
        ⟨fun _ => true, false⟩).1.batches.map
      (fun b => b.map (fun p => (BArr.shape p.2).get? 1)) = [[some 1], [some 2]] ∧
    ¬ (∀ b ∈ (Minibatches.call ⟨3, [("x", ⟨[5, 3, 2]⟩)], true, 2, 0, 20⟩
          ⟨fun _ => true, false⟩).1.batches.dropLast,
        ∀ p ∈ b, (BArr.shape p.2).get? 1 = some 2) := by
  refine ⟨rfl, rfl, ?_⟩
  decide

/-- Claim C5, amended: one call of a validly constructed `Minibatches`
iterator with positive batch size yields exactly
`ceil(nr_sequences / batch_size)` batches; the chunk extents over the
visited order sum to `nr_sequences`; every yielded batch's arrays all
have the axis-1 extent of that batch's chunk; every chunk other than the
final chunk index has extent exactly `batch_size`; and with shuffling
disabled every yielded batch except the last has axis-1 extent exactly
`batch_size` (under shuffling the short final chunk may be yielded at any
position). -/
theorem claim_C5_minibatches_amended (B : Nat) (sh : Bool) (seed : Nat)
    (nd : List (String × Value)) (it : Minibatches) (h : Handler)
    (hok : Minibatches.init B sh seed nd = .ok it) (hB : 0 < it.batch_size) :
    (Minibatches.call it h).1.batches.length =
      numChunks it.nr_sequences it.batch_size ∧
    ((Minibatches.callIndices it).1.map (chunkExtent it.nr_sequences it.batch_size)).sum =
      it.nr_sequences ∧
    (Minibatches.call it h).1.batches.map
        (fun b => b.map (fun p => (BArr.shape p.2).get? 1)) =
      (Minibatches.callIndices it).1.map (fun idx =>
        it.data.map (fun _ => some (chunkExtent it.nr_sequences it.batch_size idx))) ∧
    (∀ idx, idx + 1 < numChunks it.nr_sequences it.batch_size →
      chunkExtent it.nr_sequences it.batch_size idx = it.batch_size) ∧
    (it.shuffle = false → ∀ i, i + 1 < numChunks it.nr_sequences it.batch_size →
      ((Minibatches.call it h).1.batches.map
          (fun b => b.map (fun p => (BArr.shape p.2).get? 1))).get? i =
        some (it.data.map (fun _ => some it.batch_size))) := by
  obtain ⟨hdata, -, -, -, hassert⟩ := minibatches_init_spec hok
  have hperm := minibatches_callIndices_perm it
  have hlen : (Minibatches.callIndices it).1.length =
      numChunks it.nr_sequences it.batch_size := by
    simpa using hperm.length_eq
  have hshapes : ∀ q ∈ it.data, ∃ s0 s2 t, q.2.shape = s0 :: it.nr_sequences :: s2 :: t := by
    rw [hdata]
    exact data_shapes_of_assert hassert
  have hBne : it.batch_size ≠ 0 := Nat.pos_iff_ne_zero.1 hB
  have hsig : (Minibatches.call it h).1.batches.map
      (fun b => b.map (fun p => (BArr.shape p.2).get? 1)) =
      (Minibatches.callIndices it).1.map (fun idx =>
        it.data.map (fun _ => some (chunkExtent it.nr_sequences it.batch_size idx))) := by
    rw [minibatches_call_batches it h hBne, List.map_map]
    refine List.map_congr_left ?_
    intro idx _
    simp only [Function.comp]
    have hentry : ∀ q ∈ it.data,
        (sliceAxis1 q.2.shape (idx * it.batch_size) ((idx + 1) * it.batch_size)).get? 1 =
          some (chunkExtent it.nr_sequences it.batch_size idx) := by
      intro q hq
      obtain ⟨s0, s2, t, hs⟩ := hshapes q hq
      rw [hs, sliceAxis1_get1]
      rfl
    by_cases hall : it.data.all (fun p => h.isInstance p.2)
    · rw [hall]
      simp only [Bool.not_true, Bool.false_eq_true, if_false, List.map_map]
      refine List.map_congr_left ?_
      intro q hq
      simp only [Function.comp]
      rw [BArr.shape_view]
      exact hentry q hq
    · rw [Bool.not_eq_true] at hall
      rw [hall]
      simp only [Bool.not_false, if_true, stageSlices_extents]
      exact List.map_congr_left hentry
  refine ⟨?_, ?_, hsig, ?_, ?_⟩
  · rw [minibatches_call_batches it h hBne, List.length_map, hlen]
  · have hpm : ((Minibatches.callIndices it).1.map
        (chunkExtent it.nr_sequences it.batch_size)).sum =
        ((List.range (numChunks it.nr_sequences it.batch_size)).map
          (chunkExtent it.nr_sequences it.batch_size)).sum :=
      (hperm.map _).sum_eq
    rw [hpm, chunkExtent_sum _ _ hB]
  · intro idx hidx
    exact chunkExtent_eq_B hB hidx
  · intro hs i hi
    have hr : (Minibatches.callIndices it).1 =
        List.range (numChunks it.nr_sequences it.batch_size) := by
      unfold Minibatches.callIndices
      rw [hs]
      rfl
    rw [hsig, hr, List.get?_map, List.get?_range (Nat.lt_of_succ_lt hi)]
    have hce := chunkExtent_eq_B hB hi
    simp [hce]

/-- Instance of the amended claim C5: N = 3, B = 2, no shuffling, chunk
extents 2 then 1, summing to 3. -/
theorem claim_C5_minibatches_amended_witness :
    (Minibatches.call ⟨3, [("x", ⟨[5, 3, 2]⟩)], false, 2, 0, 20⟩
        ⟨fun _ => true, false⟩).1.batches.length = numChunks 3 2 ∧
    ((Minibatches.callIndices ⟨3, [("x", ⟨[5, 3, 2]⟩)], false, 2, 0, 20⟩).1.map
        (chunkExtent 3 2)).sum = 3 ∧
    (Minibatches.call ⟨3, [("x", ⟨[5, 3, 2]⟩)], false, 2, 0, 20⟩
        ⟨fun _ => true, false⟩).1.batches.map
      (fun b => b.map (fun p => (BArr.shape p.2).get? 1)) =
      (Minibatches.callIndices ⟨3, [("x", ⟨[5, 3, 2]⟩)], false, 2, 0, 20⟩).1.map
        (fun idx => [("x", (⟨[5, 3, 2]⟩ : Arr))].map (fun _ => some (chunkExtent 3 2 idx))) ∧
    (∀ idx, idx + 1 < numChunks 3 2 → chunkExtent 3 2 idx = 2) ∧
    (false = false → ∀ i, i + 1 < numChunks 3 2 →
      ((Minibatches.call ⟨3, [("x", ⟨[5, 3, 2]⟩)], false, 2, 0, 20⟩
          ⟨fun _ => true, false⟩).1.batches.map
        (fun b => b.map (fun p => (BArr.shape p.2).get? 1))).get? i =
        some [some 2]) :=
  claim_C5_minibatches_amended 2 false 0 [("x", Value.arr [5, 3, 2])]
    ⟨3, [("x", ⟨[5, 3, 2]⟩)], false, 2, 0, 20⟩ ⟨fun _ => true, false⟩ rfl (by decide)

lemma stageSlices_mem : ∀ {data : List (String × Arr)} {j lo hi : Nat} {q : String × BArr},
    q ∈ stageSlices j lo hi data → ∃ off shp, q.2 = BArr.staged off shp := by
  intro data
  induction data with
  | nil => intro j lo hi q hq; cases hq
  | cons hd tl ih =>
    obtain ⟨k, v⟩ := hd
    intro j lo hi q hq
    simp only [stageSlices] at hq
    rcases List.mem_cons.1 hq with rfl | hq
    · exact ⟨j, sliceAxis1 v.shape lo hi, rfl⟩
    · exact ih hq

lemma minibatches_call_batches_zero (it : Minibatches) (h : Handler)
    (hB : it.batch_size = 0) : (Minibatches.call it h).1.batches = [] := by
  unfold Minibatches.call
  rw [if_pos hB]

/-- Claim C7: for `Online` and `Minibatches` the copy decision is made
once per call from `all([isinstance(v, handler.array_type) for v in
self.data.values()])`.  When every array is backend-resident the call
allocates nothing and every yielded array is a basic-slicing view
`v[:, lo:hi]` of the original array stored under the same name (such a
view aliases the source, so mutating it mutates the source); otherwise
exactly one flat buffer of `sample_size` elements is allocated for the
whole call and every yielded array is a reshaped slice of that buffer,
staged via `set_from_numpy`. -/
theorem claim_C7_copy_decision (it : Online) (itm : Minibatches) (h : Handler) :
    (it.data.all (fun p => h.isInstance p.2) = true →
      (Online.call it h).1.allocations = [] ∧
      ∀ b ∈ (Online.call it h).1.batches, ∀ p ∈ b,
        ∃ v lo hi, (p.1, v) ∈ it.data ∧ p.2 = BArr.view p.1 lo hi (sliceAxis1 v.shape lo hi)) ∧
    (it.data.all (fun p => h.isInstance p.2) = false →
      (Online.call it h).1.allocations = [it.sample_size] ∧
      ∀ b ∈ (Online.call it h).1.batches, ∀ p ∈ b,
        ∃ off shp, p.2 = BArr.staged off shp) ∧
    (itm.data.all (fun p => h.isInstance p.2) = true →
      (Minibatches.call itm h).1.allocations = [] ∧
      ∀ b ∈ (Minibatches.call itm h).1.batches, ∀ p ∈ b,
        ∃ v lo hi, (p.1, v) ∈ itm.data ∧ p.2 = BArr.view p.1 lo hi (sliceAxis1 v.shape lo hi)) ∧
    (itm.data.all (fun p => h.isInstance p.2) = false →
      (Minibatches.call itm h).1.allocations = [itm.sample_size] ∧
      ∀ b ∈ (Minibatches.call itm h).1.batches, ∀ p ∈ b,
        ∃ off shp, p.2 = BArr.staged off shp) := by
  refine ⟨?_, ?_, ?_, ?_⟩
  · intro hall
    constructor
    · rw [online_call_allocations, hall]
      rfl
    · intro b hb p hp
      rw [online_call_batches] at hb
      obtain ⟨idx, -, rfl⟩ := List.mem_map.1 hb
      rw [hall] at hp
      simp only [Bool.not_true, Bool.false_eq_true, if_false] at hp
      obtain ⟨q, hq, rfl⟩ := List.mem_map.1 hp
      exact ⟨q.2, idx, idx + 1, by simpa using hq, rfl⟩
  · intro hall
    constructor
    · rw [online_call_allocations, hall]
      rfl
    · intro b hb p hp
      rw [online_call_batches] at hb
      obtain ⟨idx, -, rfl⟩ := List.mem_map.1 hb
      rw [hall] at hp
      simp only [Bool.not_false, if_true] at hp
      exact stageSlices_mem hp
  · intro hall
    constructor
    · rw [minibatches_call_allocations, hall]
      rfl
    · intro b hb p hp
      by_cases hB0 : itm.batch_size = 0
      · rw [minibatches_call_batches_zero itm h hB0] at hb
        cases hb
      · rw [minibatches_call_batches itm h hB0] at hb
        obtain ⟨idx, -, rfl⟩ := List.mem_map.1 hb
        rw [hall] at hp
        simp only [Bool.not_true, Bool.false_eq_true, if_false] at hp
        obtain ⟨q, hq, rfl⟩ := List.mem_map.1 hp
        exact ⟨q.2, idx * itm.batch_size, (idx + 1) * itm.batch_size, by simpa using hq, rfl⟩
  · intro hall
    constructor
    · rw [minibatches_call_allocations, hall]
      rfl
    · intro b hb p hp
      by_cases hB0 : itm.batch_size = 0
      · rw [minibatches_call_batches_zero itm h hB0] at hb
        cases hb
      · rw [minibatches_call_batches itm h hB0] at hb
        obtain ⟨idx, -, rfl⟩ := List.mem_map.1 hb
        rw [hall] at hp
        simp only [Bool.not_false, if_true] at hp
        exact stageSlices_mem hp

/-- Instances of claim C7: a fully resident `Online` dataset yields views
with no allocation, and a non-resident `Minibatches` dataset allocates
exactly one buffer of `sample_size` elements and yields staged copies. -/
theorem claim_C7_copy_decision_witness :
    ((Online.call ⟨3, [("x", ⟨[2, 3, 4]⟩)], false, 0, 8⟩ ⟨fun _ => true, false⟩).1.allocations = [] ∧
      ∀ b ∈ (Online.call ⟨3, [("x", ⟨[2, 3, 4]⟩)], false, 0, 8⟩
          ⟨fun _ => true, false⟩).1.batches, ∀ p ∈ b,
        ∃ v lo hi, (p.1, v) ∈ [("x", (⟨[2, 3, 4]⟩ : Arr))] ∧
          p.2 = BArr.view p.1 lo hi (sliceAxis1 v.shape lo hi)) ∧
    ((Minibatches.call ⟨3, [("x", ⟨[5, 3, 2]⟩)], false, 2, 0, 20⟩
        ⟨fun _ => false, false⟩).1.allocations = [20] ∧
      ∀ b ∈ (Minibatches.call ⟨3, [("x", ⟨[5, 3, 2]⟩)], false, 2, 0, 20⟩
          ⟨fun _ => false, false⟩).1.batches, ∀ p ∈ b,
        ∃ off shp, p.2 = BArr.staged off shp) :=
  ⟨(claim_C7_copy_decision ⟨3, [("x", ⟨[2, 3, 4]⟩)], false, 0, 8⟩
      ⟨3, [("x", ⟨[5, 3, 2]⟩)], false, 2, 0, 20⟩ ⟨fun _ => true, false⟩).1 rfl,
    (claim_C7_copy_decision ⟨3, [("x", ⟨[2, 3, 4]⟩)], false, 0, 8⟩
      ⟨3, [("x", ⟨[5, 3, 2]⟩)], false, 2, 0, 20⟩ ⟨fun _ => false, false⟩).2.2.2 rfl⟩
